import Mathlib

/-!
Verification development for the Micro-Epsilon scanCONTROL data-conversion
pipeline (src/C++/DataConversion.h, src/C++/ProfileProcess.cpp,
src/C++/Micro-EpsilonToMIL.cpp).

Embedding notes.
The C++ code manipulates MIL buffers through opaque MIL_IDs: buffers are
mutable and shared by id, so we model a heap mapping buffer ids to buffer
contents.  A buffer's pixel values are modelled as exact rationals; the MIL
library's integer arithmetic saturates to the destination type's range
(modelled where the code relies on it, i.e. M_CONST_SUB on unsigned
buffers), while M_FLOAT_PROC arithmetic is modelled exactly (float rounding
is abstracted).  MIL calls that fail on a null or absent buffer are
modelled with Option.  Display and rendering calls (Mdisp*, Mgra*, McalDraw,
MgenLutFunction, the D3D block) are output-only effects on external display
resources and are not part of the modelled state.
-/

/-- A MIL buffer: logical pixel dimensions, the maximum representable value
of its pixel type (MbufInquire M_MAX; 255 for 8+M_UNSIGNED, 65535 for
16+M_UNSIGNED, FLT_MAX for 32+M_FLOAT), and its logical pixel values in
row-major order (the physical pitch/stride padding is not part of the
logical contents). -/
structure Buf where
  sizeX : Nat
  sizeY : Nat
  bmax : ℚ
  elems : List ℚ
deriving DecidableEq, Repr

/-- struct SPCal (DataConversion.h): calibration associated to profile
data.  WorldX/WorldZ are the per-axis offsets, GrayLevelSX/GrayLevelSZ the
per-axis scales. -/
structure SPCal where
  WorldX : ℚ
  WorldZ : ℚ
  GrayLevelSX : ℚ
  GrayLevelSZ : ℚ
deriving DecidableEq, Repr

/-- struct SPData (DataConversion.h): the profile data as three buffer
ids.  MilValidMask is M_NULL by default, modelled as an Option. -/
structure SPData where
  MilX : Nat
  MilZ : Nat
  MilValidMask : Option Nat
deriving DecidableEq, Repr

/-- First-match lookup in an association list of allocated buffers. -/
def lookupBuf : List (Nat × Buf) → Nat → Option Buf
  | [], _ => none
  | (j, b) :: rest, i => if j = i then some b else lookupBuf rest i

/-- The MIL buffer heap: a fresh-id counter and the allocated buffers. -/
structure Heap where
  next : Nat
  mem : List (Nat × Buf)
deriving DecidableEq, Repr

/-- Read the buffer with the given id. -/
def Heap.get (h : Heap) (i : Nat) : Option Buf := lookupBuf h.mem i

/-- Overwrite (in place) the contents of the buffer with the given id. -/
def Heap.set (h : Heap) (i : Nat) (b : Buf) : Heap :=
  ⟨h.next, (i, b) :: h.mem⟩

/-- Well-formed heap: every allocated id is below the fresh-id counter. -/
def Heap.WF (h : Heap) : Prop := ∀ p ∈ h.mem, p.1 < h.next

instance (h : Heap) : Decidable h.WF := by
  unfold Heap.WF; infer_instance

/-- MbufAlloc2d: allocates a fresh buffer of the given logical size and
pixel type (represented by its maximum value); initial contents are
unspecified, modelled as zeros. -/
def mbufAlloc2d (h : Heap) (sizeX sizeY : Nat) (bmax : ℚ) : Heap × Nat :=
  (⟨h.next + 1, (h.next, ⟨sizeX, sizeY, bmax, List.replicate (sizeX * sizeY) 0⟩) :: h.mem⟩,
   h.next)

/-- MbufAlloc1d: a 1-d allocation is a 2-d allocation with one row. -/
def mbufAlloc1d (h : Heap) (size : Nat) (bmax : ℚ) : Heap × Nat :=
  mbufAlloc2d h size 1 bmax

/-- Saturation of a MIL integer arithmetic result to the destination
buffer's representable range [0, bmax]. -/
def milSat (bmax v : ℚ) : ℚ := max 0 (min v bmax)

/-- MimArith(Src, Const, Dst, op + M_FLOAT_PROC) for a per-element float
operation f: every element of Src is mapped by f into Dst (no clamping;
float rounding abstracted). -/
def mimArithConstFloat (h : Heap) (srcId dstId : Nat) (f : ℚ → ℚ) : Option Heap := do
  let src ← h.get srcId
  let dst ← h.get dstId
  some (h.set dstId { dst with elems := src.elems.map f })

/-- MimArith(Src, Const, Dst, M_NOT_EQUAL_CONST): every destination element
becomes the destination type's maximum where the source element differs
from the constant, and 0 where it equals it. -/
def mimArithNotEqualConst (h : Heap) (srcId : Nat) (c : ℚ) (dstId : Nat) : Option Heap := do
  let src ← h.get srcId
  let dst ← h.get dstId
  some (h.set dstId { dst with elems := src.elems.map (fun z => if z = c then 0 else dst.bmax) })

/-- MimArith(Const, Src, Dst, M_CONST_SUB): every destination element
becomes Const minus the source element, saturated to the destination
type's range. -/
def mimArithConstSub (h : Heap) (c : ℚ) (srcId dstId : Nat) : Option Heap := do
  let src ← h.get srcId
  let dst ← h.get dstId
  some (h.set dstId { dst with elems := src.elems.map (fun v => milSat dst.bmax (c - v)) })

/-- MbufGet(Src, host address of Dst): copies the logical contents of Src,
row by row (dropping any pitch padding), into the contiguous host memory
of Dst. -/
def mbufGetInto (h : Heap) (srcId dstId : Nat) : Option Heap := do
  let src ← h.get srcId
  let dst ← h.get dstId
  some (h.set dstId { dst with elems := src.elems })

/-- The element list produced by MbufClearCond with condition
(Mask, M_EQUAL, 0): Val where the mask element equals 0, the original
image element elsewhere. -/
def clearCondList (val : ℚ) (img mask : List ℚ) : List ℚ :=
  List.zipWith (fun v mv => if mv = 0 then val else v) img mask

/-- MbufClearCond(Img, Val, _, _, Mask, M_EQUAL, 0): writes Val into every
element of Img whose corresponding Mask element equals 0, leaving the
other elements untouched. -/
def mbufClearCond (h : Heap) (imgId : Nat) (val : ℚ) (maskId : Nat) : Option Heap := do
  let img ← h.get imgId
  let mask ← h.get maskId
  some (h.set imgId { img with elems := clearCondList val img.elems mask.elems })

/-- The per-stage state of each concrete CDataConversion subclass: the
stage's pre-allocated buffer ids and parameters (DataConversion.h). -/
inductive ConvStage where
  /-- CDataConversionAddMask: its mask buffer id and m_InvalidValue. -/
  | addMask (maskId : Nat) (invalidValue : ℚ)
  /-- CDataConversionToWorld: its pre-allocated float output buffer ids
  (m_ConvertedData.MilX / MilZ) and m_PCal. -/
  | toWorld (outX outZ : Nat) (pcal : SPCal)
  /-- CDataConversionToFlat: its pre-allocated flat output buffer ids. -/
  | toFlat (outX outZ outMask : Nat)
  /-- CDataConversionFlipXVal. -/
  | flipX
  /-- CDataConversionFlipZVal. -/
  | flipZ
  /-- CDataConversionApplyInvalid. -/
  | applyInvalid
deriving DecidableEq, Repr

/-- CDataConversionApplyInvalid::ApplyInvalidMask: inquires the image's
maximum representable value (MbufInquire M_MAX) and conditionally clears
to it the elements whose mask value equals 0. -/
def ApplyInvalidMask (h : Heap) (imgId maskId : Nat) : Option Heap := do
  let img ← h.get imgId
  mbufClearCond h imgId img.bmax maskId

/-- CDataConversionFlipXVal::ConvertOp:
MimArith(65535, Data.MilX, Data.MilX, M_CONST_SUB). -/
def CDataConversionFlipXVal.ConvertOp (h : Heap) (d : SPData) : Option Heap :=
  mimArithConstSub h 65535 d.MilX d.MilX

/-- CDataConversionFlipZVal::ConvertOp:
MimArith(65535, Data.MilZ, Data.MilZ, M_CONST_SUB). -/
def CDataConversionFlipZVal.ConvertOp (h : Heap) (d : SPData) : Option Heap :=
  mimArithConstSub h 65535 d.MilZ d.MilZ

/-- CDataConversionApplyInvalid::ConvertOp: applies the invalid mask to
the X data, then to the Z data (a null MilValidMask is a MIL error). -/
def CDataConversionApplyInvalid.ConvertOp (h : Heap) (d : SPData) : Option Heap := do
  let m ← d.MilValidMask
  let h1 ← ApplyInvalidMask h d.MilX m
  ApplyInvalidMask h1 d.MilZ m

/-- The transform a single stage applies to the upstream-converted data:
the body of each subclass's Convert after the initial ConvertPrev call
(for the CDataConversionOp subclasses, ConvertOp followed by returning the
same SPData). -/
def stageConvert : ConvStage → Heap → SPData → Option (Heap × SPData)
  | .addMask maskId inv, h, d => do
      -- MimArith(ConvertedData.MilZ, m_InvalidValue, m_MilValidMask, M_NOT_EQUAL_CONST);
      -- ConvertedData.MilValidMask = m_MilValidMask;
      let h1 ← mimArithNotEqualConst h d.MilZ inv maskId
      some (h1, { d with MilValidMask := some maskId })
  | .toWorld oX oZ pcal, h, d => do
      -- MimArith(ConvertedData.MilX, m_PCal.GrayLevelSX, m_ConvertedData.MilX, M_MULT_CONST + M_FLOAT_PROC);
      let h1 ← mimArithConstFloat h d.MilX oX (fun v => v * pcal.GrayLevelSX)
      -- MimArith(m_ConvertedData.MilX, m_PCal.WorldX, m_ConvertedData.MilX, M_ADD_CONST + M_FLOAT_PROC);
      let h2 ← mimArithConstFloat h1 oX oX (fun v => v + pcal.WorldX)
      -- MimArith(ConvertedData.MilZ, m_PCal.GrayLevelSZ, m_ConvertedData.MilZ, M_MULT_CONST + M_FLOAT_PROC);
      let h3 ← mimArithConstFloat h2 d.MilZ oZ (fun v => v * pcal.GrayLevelSZ)
      -- MimArith(m_ConvertedData.MilZ, m_PCal.WorldZ, m_ConvertedData.MilZ, M_ADD_CONST + M_FLOAT_PROC);
      let h4 ← mimArithConstFloat h3 oZ oZ (fun v => v + pcal.WorldZ)
      -- m_ConvertedData.MilValidMask = ConvertedData.MilValidMask; return m_ConvertedData;
      some (h4, ⟨oX, oZ, d.MilValidMask⟩)
  | .toFlat oX oZ oM, h, d => do
      -- MbufGet(ConvertedData.MilX, host address of m_ConvertedData.MilX); ...
      let h1 ← mbufGetInto h d.MilX oX
      let h2 ← mbufGetInto h1 d.MilZ oZ
      let m ← d.MilValidMask
      let h3 ← mbufGetInto h2 m oM
      some (h3, ⟨oX, oZ, some oM⟩)
  | .flipX, h, d => do
      let h1 ← CDataConversionFlipXVal.ConvertOp h d
      some (h1, d)
  | .flipZ, h, d => do
      let h1 ← CDataConversionFlipZVal.ConvertOp h d
      some (h1, d)
  | .applyInvalid, h, d => do
      let h1 ← CDataConversionApplyInvalid.ConvertOp h d
      some (h1, d)

/-- A conversion chain is the linked list of stages reachable through
m_pPrevConv, head (outermost stage) first; the empty list is a null
CDataConversion pointer.  Convert of a stage calls ConvertPrev first
(which returns the input unchanged when m_pPrevConv is null, and is also
how CMicroEpsilonToMIL::MilInterface treats a null m_pDataConversion),
then applies the stage's own transform. -/
def ConvertChain : List ConvStage → Heap → SPData → Option (Heap × SPData)
  | [], h, d => some (h, d)
  | s :: prev, h, d => (ConvertChain prev h d).bind fun p => stageConvert s p.1 p.2

/-- CDataConversionAddMask constructor: allocates the 8+M_UNSIGNED mask
buffer (maximum value 255) of the profile shape. -/
def CDataConversionAddMask.construct (h : Heap) (profileSize nbProfiles : Nat)
    (invalidValue : ℚ) : Heap × ConvStage :=
  let (h1, m) := mbufAlloc2d h profileSize nbProfiles 255
  (h1, .addMask m invalidValue)

/-- The maximum finite value of a 32-bit IEEE float, the M_MAX of a
32+M_FLOAT buffer: (2^24 - 1) * 2^104. -/
def FLT_MAX_Q : ℚ := (2 ^ 24 - 1) * 2 ^ 104

/-- CDataConversionToWorld constructor: allocates the two 32+M_FLOAT
output buffers of the profile shape. -/
def CDataConversionToWorld.construct (h : Heap) (profileSize nbProfiles : Nat)
    (pcal : SPCal) : Heap × ConvStage :=
  let (h1, oX) := mbufAlloc2d h profileSize nbProfiles FLT_MAX_Q
  let (h2, oZ) := mbufAlloc2d h1 profileSize nbProfiles FLT_MAX_Q
  (h2, .toWorld oX oZ pcal)

/-- CDataConversionToFlat constructor: allocates two 1-d output buffers of
ProfileSize*NbProfiles elements of the requested type, and a 1-d
8+M_UNSIGNED mask buffer of the same element count. -/
def CDataConversionToFlat.construct (h : Heap) (profileSize nbProfiles : Nat)
    (typeMax : ℚ) : Heap × ConvStage :=
  let (h1, oX) := mbufAlloc1d h (profileSize * nbProfiles) typeMax
  let (h2, oZ) := mbufAlloc1d h1 (profileSize * nbProfiles) typeMax
  let (h3, oM) := mbufAlloc1d h2 (profileSize * nbProfiles) 255
  (h3, .toFlat oX oZ oM)

/-- CProfile3dPointsProcess constructor: builds the conversion chain
ToWorld (no predecessor) -> ToFlat (32+M_FLOAT) -> ApplyInvalid, head
last (ProfileProcess.cpp lines 72-76). -/
def CProfile3dPointsProcess.buildChain (h : Heap) (profileSize nbProfiles : Nat)
    (pcal : SPCal) : Heap × List ConvStage :=
  let (h1, sWorld) := CDataConversionToWorld.construct h profileSize nbProfiles pcal
  let (h2, sFlat) := CDataConversionToFlat.construct h1 profileSize nbProfiles FLT_MAX_Q
  (h2, [.applyInvalid, sFlat, sWorld])

/-- The Y-coordinate table m_ConvertedY filled by the
CProfileDepthMapProcess constructor: for each profile row y in
acquisition order, CurY = WorldPosY + y * ConveyorSpeed is written at
every column index x of that row (index x + y*ProfileSize). -/
def makeConvertedY (worldPosY conveyorSpeed : ℚ) (profileSize : Nat) : Nat → List ℚ
  | 0 => []
  | n + 1 =>
      makeConvertedY worldPosY conveyorSpeed profileSize n ++
        List.replicate profileSize (worldPosY + (n : ℚ) * conveyorSpeed)

/-- The modelled state of a CProfileDepthMapProcess: its conversion chain,
m_ConvertedY, m_NbPoints (= ProfileSize * NbProfiles, set by
CProfileProcess through CProfile3dPointsProcess), the point-cloud
container contents, and m_NbFramesProcessed. -/
structure DMState where
  chain : List ConvStage
  convertedY : List ℚ
  nbPoints : Nat
  pointCloud : List (ℚ × ℚ × ℚ)
  nbFramesProcessed : Nat
deriving DecidableEq, Repr

/-- CProfileDepthMapProcess constructor (ProfileProcess.cpp lines
171-247): builds the 3d-points conversion chain, fills m_ConvertedY,
allocates an empty point-cloud container (M3dmapAllocResult) and starts
with no frame processed.  The depth-map raster, its calibration and the
display resources are external display state, not modelled. -/
def CProfileDepthMapProcess.construct (h : Heap) (pcal : SPCal)
    (worldPosY conveyorSpeed : ℚ) (profileSize nbProfiles : Nat) : Heap × DMState :=
  let (h1, chain) := CProfile3dPointsProcess.buildChain h profileSize nbProfiles pcal
  (h1,
   { chain := chain
     convertedY := makeConvertedY worldPosY conveyorSpeed profileSize nbProfiles
     nbPoints := profileSize * nbProfiles
     pointCloud := []
     nbFramesProcessed := 0 })

/-- M3dmapPut(Container, M_POINT_CLOUD_LABEL(1), M_POSITION, ..., NbPoints,
pX, pY, pZ, ...): reads exactly NbPoints coordinates from the three host
arrays (reading past an array's end is an error) and appends the samples
as one labeled batch to the point-cloud container; previously accumulated
points are kept. -/
def m3dmapPut (cloud : List (ℚ × ℚ × ℚ)) (n : Nat) (xs ys zs : List ℚ) :
    Option (List (ℚ × ℚ × ℚ)) :=
  if n ≤ xs.length ∧ n ≤ ys.length ∧ n ≤ zs.length then
    some (cloud ++ List.zip (xs.take n) (List.zip (ys.take n) (zs.take n)))
  else none

/-- CProfileDepthMapProcess::Process (ProfileProcess.cpp lines 268-292):
converts the data through the owned chain, puts m_NbPoints samples
(converted X, precomputed m_ConvertedY, converted Z) into the point-cloud
container, re-extracts the depth map from the full accumulated container
(M3dmapExtract reads the container and writes the external depth-map
raster; it does not modify the container), and increments
m_NbFramesProcessed. -/
def CProfileDepthMapProcess.Process (st : DMState) (h : Heap) (d : SPData) :
    Option (DMState × Heap) := do
  let (h1, cd) ← ConvertChain st.chain h d
  let bx ← h1.get cd.MilX
  let bz ← h1.get cd.MilZ
  let cloud ← m3dmapPut st.pointCloud st.nbPoints bx.elems st.convertedY bz.elems
  some ({ st with pointCloud := cloud, nbFramesProcessed := st.nbFramesProcessed + 1 }, h1)

/-- A sequence of Process calls, one per acquired frame, in acquisition
order. -/
def ProcessSeq (st : DMState) (h : Heap) : List SPData → Option (DMState × Heap)
  | [] => some (st, h)
  | d :: ds => (CProfileDepthMapProcess.Process st h d).bind fun p => ProcessSeq p.1 p.2 ds

/-! Heap lemmas. -/

theorem lookupBuf_cons_self (j : Nat) (b : Buf) (rest : List (Nat × Buf)) :
    lookupBuf ((j, b) :: rest) j = some b := by
  simp [lookupBuf]

theorem lookupBuf_cons_ne (i j : Nat) (b : Buf) (rest : List (Nat × Buf))
    (hij : j ≠ i) : lookupBuf ((j, b) :: rest) i = lookupBuf rest i := by
  simp [lookupBuf, hij]

theorem Heap.get_set_self (h : Heap) (i : Nat) (b : Buf) :
    (h.set i b).get i = some b := by
  simp [Heap.get, Heap.set, lookupBuf]

theorem Heap.get_set_ne (h : Heap) (i j : Nat) (b : Buf) (hij : j ≠ i) :
    (h.set i b).get j = h.get j := by
  have hij' : i ≠ j := fun hh => hij hh.symm
  simp [Heap.get, Heap.set, lookupBuf, hij']

theorem Heap.next_set (h : Heap) (i : Nat) (b : Buf) :
    (h.set i b).next = h.next := rfl

theorem lookupBuf_mem {l : List (Nat × Buf)} {i : Nat} {b : Buf}
    (hg : lookupBuf l i = some b) : (i, b) ∈ l := by
  induction l with
  | nil => simp [lookupBuf] at hg
  | cons p rest ih =>
      obtain ⟨j, c⟩ := p
      by_cases hji : j = i
      · subst hji
        rw [lookupBuf_cons_self] at hg
        obtain rfl := Option.some.inj hg
        exact List.mem_cons_self _ _
      · rw [lookupBuf_cons_ne _ _ _ _ hji] at hg
        exact List.mem_cons_of_mem _ (ih hg)

theorem Heap.WF.lt_next {h : Heap} (hwf : h.WF) {i : Nat} {b : Buf}
    (hg : h.get i = some b) : i < h.next :=
  hwf _ (lookupBuf_mem hg)

/-! Claim theorems. -/

/-- Claim C1: for a conversion chain S1 -> S2 -> S3 built with S3 as head
(each stage holding its predecessor), Convert applies S1's transform
first, then S2's, then S3's, to the same threaded buffer; and in general
every stage's Convert first invokes its predecessor's Convert and then
applies its own transform to the upstream-converted buffer. -/
theorem chain_applies_stages_in_order (s1 s2 s3 : ConvStage) (h : Heap) (d : SPData) :
    (ConvertChain [s3, s2, s1] h d =
      ((stageConvert s1 h d).bind fun p => stageConvert s2 p.1 p.2).bind
        fun p => stageConvert s3 p.1 p.2) ∧
    ∀ (s : ConvStage) (prev : List ConvStage) (h0 : Heap) (d0 : SPData),
      ConvertChain (s :: prev) h0 d0 =
        (ConvertChain prev h0 d0).bind fun p => stageConvert s p.1 p.2 := by
  constructor
  · simp [ConvertChain]
  · intro s prev h0 d0
    rfl

/-- Claim C7: a conversion chain with no predecessor (a null
CDataConversion pointer, as tested by CMicroEpsilonToMIL::MilInterface) is
the identity transform, returning the input ProfileBuffer with the same
X, Z and mask buffers and the heap untouched; and a stage with no
predecessor treats its input as already converted: its Convert applies
its own transform directly to the input. -/
theorem empty_chain_identity :
    (∀ (h : Heap) (d : SPData), ConvertChain [] h d = some (h, d)) ∧
    ∀ (s : ConvStage) (h : Heap) (d : SPData), ConvertChain [s] h d = stageConvert s h d := by
  constructor
  · intro h d
    rfl
  · intro s h d
    simp [ConvertChain]

/-- Running MimArith(65535, B, B, M_CONST_SUB) once on a 16-bit unsigned
buffer whose values lie in [0, 65535] replaces every value v by 65535 - v
in place; running it again restores the original buffer. -/
theorem flipOp_double (h : Heap) (i : Nat) (b : Buf)
    (hg : h.get i = some b) (hb : b.bmax = 65535)
    (hr : ∀ v ∈ b.elems, 0 ≤ v ∧ v ≤ 65535) :
    ∃ h1, mimArithConstSub h 65535 i i = some h1 ∧
      h1.get i = some { b with elems := b.elems.map (fun v => 65535 - v) } ∧
      (∀ j, j ≠ i → h1.get j = h.get j) ∧ h1.next = h.next ∧
      ∃ h2, mimArithConstSub h1 65535 i i = some h2 ∧ h2.get i = some b := by
  have hmap : b.elems.map (fun v => milSat b.bmax (65535 - v)) =
      b.elems.map (fun v => 65535 - v) := by
    apply List.map_congr_left
    intro v hv
    obtain ⟨hv0, hv1⟩ := hr v hv
    rw [hb, milSat, min_eq_left (by linarith), max_eq_right (by linarith)]
  refine ⟨h.set i { b with elems := b.elems.map (fun v => 65535 - v) }, ?_, ?_, ?_, rfl, ?_⟩
  · simp [mimArithConstSub, hg, hmap]
  · exact Heap.get_set_self _ _ _
  · intro j hj
    exact Heap.get_set_ne _ _ _ _ hj
  · have hg1 : (h.set i { b with elems := b.elems.map (fun v => 65535 - v) }).get i =
        some { b with elems := b.elems.map (fun v => 65535 - v) } := Heap.get_set_self _ _ _
    have hmap2 : (b.elems.map (fun v => 65535 - v)).map (fun v => milSat b.bmax (65535 - v)) =
        b.elems := by
      rw [List.map_map]
      have hid : ∀ v ∈ b.elems,
          ((fun v => milSat b.bmax (65535 - v)) ∘ (fun v => 65535 - v)) v = v := by
        intro v hv
        obtain ⟨hv0, hv1⟩ := hr v hv
        simp only [Function.comp]
        rw [hb, milSat]
        rw [show (65535 : ℚ) - (65535 - v) = v by ring]
        rw [min_eq_left (by linarith), max_eq_right (by linarith)]
      rw [List.map_congr_left hid]
      simp
    have hbeta : { sizeX := b.sizeX, sizeY := b.sizeY, bmax := b.bmax, elems := b.elems } = b := rfl
    refine ⟨(h.set i { b with elems := b.elems.map (fun v => 65535 - v) }).set i b,
      ?_, Heap.get_set_self _ _ _⟩
    simp [mimArithConstSub, hg1, hmap2, hbeta]

/-- Claim C6: the X-flip (resp. Z-flip) stage's Convert replaces every
element v of the X (resp. Z) channel with 65535 - v in place: it returns
the same SPData (same buffer ids), allocates no new storage (the heap's
fresh-id counter is unchanged), and leaves every other buffer unchanged;
applying the same flip stage twice restores the original values for
channel values in [0, 65535]. -/
theorem flip_in_place_involutive (h : Heap) (d : SPData) (bx bz : Buf)
    (hgx : h.get d.MilX = some bx) (hgz : h.get d.MilZ = some bz)
    (hbx : bx.bmax = 65535) (hbz : bz.bmax = 65535)
    (hrx : ∀ v ∈ bx.elems, 0 ≤ v ∧ v ≤ 65535)
    (hrz : ∀ v ∈ bz.elems, 0 ≤ v ∧ v ≤ 65535) :
    (∃ h1, stageConvert .flipX h d = some (h1, d) ∧
      h1.get d.MilX = some { bx with elems := bx.elems.map (fun v => 65535 - v) } ∧
      (∀ j, j ≠ d.MilX → h1.get j = h.get j) ∧ h1.next = h.next ∧
      ∃ h2, stageConvert .flipX h1 d = some (h2, d) ∧ h2.get d.MilX = some bx) ∧
    (∃ h1, stageConvert .flipZ h d = some (h1, d) ∧
      h1.get d.MilZ = some { bz with elems := bz.elems.map (fun v => 65535 - v) } ∧
      (∀ j, j ≠ d.MilZ → h1.get j = h.get j) ∧ h1.next = h.next ∧
      ∃ h2, stageConvert .flipZ h1 d = some (h2, d) ∧ h2.get d.MilZ = some bz) := by
  constructor
  · obtain ⟨h1, hrun1, hget1, hother, hnext, h2, hrun2, hget2⟩ :=
      flipOp_double h d.MilX bx hgx hbx hrx
    exact ⟨h1, by simp [stageConvert, CDataConversionFlipXVal.ConvertOp, hrun1],
      hget1, hother, hnext, h2,
      by simp [stageConvert, CDataConversionFlipXVal.ConvertOp, hrun2], hget2⟩
  · obtain ⟨h1, hrun1, hget1, hother, hnext, h2, hrun2, hget2⟩ :=
      flipOp_double h d.MilZ bz hgz hbz hrz
    exact ⟨h1, by simp [stageConvert, CDataConversionFlipZVal.ConvertOp, hrun1],
      hget1, hother, hnext, h2,
      by simp [stageConvert, CDataConversionFlipZVal.ConvertOp, hrun2], hget2⟩

/-- Claim C4: CDataConversionAddMask.Convert derives the validity mask by
comparing every upstream Z element with the invalid sentinel: the
returned buffer carries the stage's mask buffer whose element at each
position is nonzero (valid) exactly when Z differs from the sentinel
there, while the X and Z buffer ids are passed through unchanged and
their contents are untouched. -/
theorem addMask_mask_from_sentinel (h : Heap) (d : SPData) (mId : Nat) (inv : ℚ)
    (bz bm : Buf)
    (hgz : h.get d.MilZ = some bz) (hgm : h.get mId = some bm)
    (hbm : bm.bmax = 255)
    (hmx : mId ≠ d.MilX) (hmz : mId ≠ d.MilZ) :
    ∃ h1, stageConvert (.addMask mId inv) h d = some (h1, ⟨d.MilX, d.MilZ, some mId⟩) ∧
      h1.get mId = some { bm with elems := bz.elems.map (fun z => if z = inv then 0 else bm.bmax) } ∧
      h1.get d.MilX = h.get d.MilX ∧
      h1.get d.MilZ = some bz ∧
      ∀ (i : Nat) (hiz : i < bz.elems.length)
        (him : i < (bz.elems.map (fun z => if z = inv then 0 else bm.bmax)).length),
        ((bz.elems.map (fun z => if z = inv then 0 else bm.bmax)).get ⟨i, him⟩ ≠ 0 ↔
          bz.elems.get ⟨i, hiz⟩ ≠ inv) := by
  refine ⟨h.set mId { bm with elems := bz.elems.map (fun z => if z = inv then 0 else bm.bmax) },
    ?_, Heap.get_set_self _ _ _, ?_, ?_, ?_⟩
  · simp [stageConvert, mimArithNotEqualConst, hgz, hgm]
  · exact Heap.get_set_ne _ _ _ _ (Ne.symm hmx)
  · rw [Heap.get_set_ne _ _ _ _ (Ne.symm hmz)]
    exact hgz
  · intro i hiz him
    simp only [List.get_eq_getElem, List.getElem_map]
    by_cases hz : bz.elems[i] = inv
    · simp [hz]
    · simp only [hz, if_false, hbm]
      norm_num
      exact hz

/-- Running CDataConversionToWorld's four MimArith calls (multiply by the
scale into the stage's output buffer, then add the offset in place, per
axis) on distinct buffers: the stage's output buffers end up holding the
affine images of the upstream X and Z data and every other buffer is
untouched. -/
theorem toWorld_run (h : Heap) (d : SPData) (oX oZ : Nat) (pcal : SPCal)
    (bx bz boX boZ : Buf)
    (hgx : h.get d.MilX = some bx) (hgz : h.get d.MilZ = some bz)
    (hoX : h.get oX = some boX) (hoZ : h.get oZ = some boZ)
    (hxz : oX ≠ oZ)
    (hX2 : oX ≠ d.MilZ) :
    ∃ h4, stageConvert (.toWorld oX oZ pcal) h d = some (h4, ⟨oX, oZ, d.MilValidMask⟩) ∧
      h4.get oX = some { boX with
        elems := bx.elems.map (fun r => r * pcal.GrayLevelSX + pcal.WorldX) } ∧
      h4.get oZ = some { boZ with
        elems := bz.elems.map (fun r => r * pcal.GrayLevelSZ + pcal.WorldZ) } ∧
      ∀ j, j ≠ oX → j ≠ oZ → h4.get j = h.get j := by
  have e1 : mimArithConstFloat h d.MilX oX (fun v => v * pcal.GrayLevelSX) =
      some (h.set oX { boX with elems := bx.elems.map (fun v => v * pcal.GrayLevelSX) }) := by
    simp [mimArithConstFloat, hgx, hoX]
  set b1 : Buf := { boX with elems := bx.elems.map (fun v => v * pcal.GrayLevelSX) } with hb1
  set h1 : Heap := h.set oX b1 with hh1
  have g1 : h1.get oX = some b1 := Heap.get_set_self _ _ _
  have e2 : mimArithConstFloat h1 oX oX (fun v => v + pcal.WorldX) =
      some (h1.set oX { b1 with elems := b1.elems.map (fun v => v + pcal.WorldX) }) := by
    simp [mimArithConstFloat, g1]
  set b2 : Buf := { b1 with elems := b1.elems.map (fun v => v + pcal.WorldX) } with hb2
  set h2 : Heap := h1.set oX b2 with hh2
  have g2z : h2.get d.MilZ = some bz := by
    rw [hh2, Heap.get_set_ne _ _ _ _ (Ne.symm hX2), hh1,
      Heap.get_set_ne _ _ _ _ (Ne.symm hX2)]
    exact hgz
  have g2o : h2.get oZ = some boZ := by
    rw [hh2, Heap.get_set_ne _ _ _ _ (Ne.symm hxz), hh1,
      Heap.get_set_ne _ _ _ _ (Ne.symm hxz)]
    exact hoZ
  have e3 : mimArithConstFloat h2 d.MilZ oZ (fun v => v * pcal.GrayLevelSZ) =
      some (h2.set oZ { boZ with elems := bz.elems.map (fun v => v * pcal.GrayLevelSZ) }) := by
    simp [mimArithConstFloat, g2z, g2o]
  set b3 : Buf := { boZ with elems := bz.elems.map (fun v => v * pcal.GrayLevelSZ) } with hb3
  set h3 : Heap := h2.set oZ b3 with hh3
  have g3 : h3.get oZ = some b3 := Heap.get_set_self _ _ _
  have e4 : mimArithConstFloat h3 oZ oZ (fun v => v + pcal.WorldZ) =
      some (h3.set oZ { b3 with elems := b3.elems.map (fun v => v + pcal.WorldZ) }) := by
    simp [mimArithConstFloat, g3]
  set b4 : Buf := { b3 with elems := b3.elems.map (fun v => v + pcal.WorldZ) } with hb4
  set h4 : Heap := h3.set oZ b4 with hh4
  refine ⟨h4, ?_, ?_, ?_, ?_⟩
  · simp [stageConvert, e1, e2, e3, e4, hh1, hh2, hh3, hh4]
  · have : h4.get oX = h2.get oX := by
      rw [hh4, Heap.get_set_ne _ _ _ _ hxz, hh3, Heap.get_set_ne _ _ _ _ hxz]
    rw [this, hh2, Heap.get_set_self]
    rw [hb2, hb1]
    simp [List.map_map]
  · rw [hh4, Heap.get_set_self, hb4, hb3]
    simp [List.map_map]
  · intro j hjX hjZ
    rw [hh4, Heap.get_set_ne _ _ _ _ hjZ, hh3, Heap.get_set_ne _ _ _ _ hjZ,
      hh2, Heap.get_set_ne _ _ _ _ hjX, hh1, Heap.get_set_ne _ _ _ _ hjX]

/-- Claim C2: CDataConversionToWorld computes, per element and per axis,
worldX = rawX * GrayLevelSX + WorldX and worldZ = rawZ * GrayLevelSZ +
WorldZ (multiply first, then add, with no clamping), writes the results
into its pre-allocated output buffers (the returned ProfileBuffer carries
the stage's own buffer ids), and returns the predecessor's validity mask
unchanged: the same mask buffer id, whose contents are not touched; for
an all-zero scale every output element is the constant offset. -/
theorem toWorld_affine (h : Heap) (d : SPData) (oX oZ : Nat) (pcal : SPCal)
    (bx bz boX boZ : Buf)
    (hgx : h.get d.MilX = some bx) (hgz : h.get d.MilZ = some bz)
    (hoX : h.get oX = some boX) (hoZ : h.get oZ = some boZ)
    (hxz : oX ≠ oZ)
    (hX2 : oX ≠ d.MilZ) :
    ∃ h4, stageConvert (.toWorld oX oZ pcal) h d = some (h4, ⟨oX, oZ, d.MilValidMask⟩) ∧
      h4.get oX = some { boX with
        elems := bx.elems.map (fun r => r * pcal.GrayLevelSX + pcal.WorldX) } ∧
      h4.get oZ = some { boZ with
        elems := bz.elems.map (fun r => r * pcal.GrayLevelSZ + pcal.WorldZ) } ∧
      (∀ m, d.MilValidMask = some m → m ≠ oX → m ≠ oZ → h4.get m = h.get m) ∧
      (pcal.GrayLevelSX = 0 →
        bx.elems.map (fun r => r * pcal.GrayLevelSX + pcal.WorldX) =
          List.replicate bx.elems.length pcal.WorldX) ∧
      (pcal.GrayLevelSZ = 0 →
        bz.elems.map (fun r => r * pcal.GrayLevelSZ + pcal.WorldZ) =
          List.replicate bz.elems.length pcal.WorldZ) := by
  obtain ⟨h4, hrun, hX, hZ, hframe⟩ :=
    toWorld_run h d oX oZ pcal bx bz boX boZ hgx hgz hoX hoZ hxz hX2
  refine ⟨h4, hrun, hX, hZ, ?_, ?_, ?_⟩
  · intro m _ hmX hmZ
    exact hframe m hmX hmZ
  · intro h0
    have hconst : bx.elems.map (fun r => r * pcal.GrayLevelSX + pcal.WorldX) =
        bx.elems.map (fun _ => pcal.WorldX) :=
      List.map_congr_left (fun r _ => by rw [h0]; ring)
    rw [hconst, List.map_const']
  · intro h0
    have hconst : bz.elems.map (fun r => r * pcal.GrayLevelSZ + pcal.WorldZ) =
        bz.elems.map (fun _ => pcal.WorldZ) :=
      List.map_congr_left (fun r _ => by rw [h0]; ring)
    rw [hconst, List.map_const']

/-- Claim C10: CDataConversionToWorld's Convert only reads the upstream X
and Z buffers: after the call their heap contents are exactly what they
were before (the stage writes only into its own pre-allocated output
buffers). -/
theorem toWorld_preserves_upstream (h : Heap) (d : SPData) (oX oZ : Nat) (pcal : SPCal)
    (bx bz boX boZ : Buf)
    (hgx : h.get d.MilX = some bx) (hgz : h.get d.MilZ = some bz)
    (hoX : h.get oX = some boX) (hoZ : h.get oZ = some boZ)
    (hxz : oX ≠ oZ)
    (hX1 : oX ≠ d.MilX) (hX2 : oX ≠ d.MilZ)
    (hZ1 : oZ ≠ d.MilX) (hZ2 : oZ ≠ d.MilZ) :
    ∃ h4 r, stageConvert (.toWorld oX oZ pcal) h d = some (h4, r) ∧
      h4.get d.MilX = some bx ∧ h4.get d.MilZ = some bz ∧
      h4.get d.MilX = h.get d.MilX ∧ h4.get d.MilZ = h.get d.MilZ := by
  obtain ⟨h4, hrun, _, _, hframe⟩ :=
    toWorld_run h d oX oZ pcal bx bz boX boZ hgx hgz hoX hoZ hxz hX2
  have hfx : h4.get d.MilX = h.get d.MilX :=
    hframe d.MilX (Ne.symm hX1) (Ne.symm hZ1)
  have hfz : h4.get d.MilZ = h.get d.MilZ :=
    hframe d.MilZ (Ne.symm hX2) (Ne.symm hZ2)
  exact ⟨h4, _, hrun, hfx.trans hgx, hfz.trans hgz, hfx, hfz⟩

/-- Running ApplyInvalidMask on an image and a mask buffer: the image's
elements whose mask value is 0 are overwritten with the image's maximum
representable value, in place. -/
theorem applyInvalidMask_run (h : Heap) (imgId maskId : Nat) (bi bm : Buf)
    (hgi : h.get imgId = some bi) (hgm : h.get maskId = some bm) :
    ApplyInvalidMask h imgId maskId =
      some (h.set imgId { bi with elems := clearCondList bi.bmax bi.elems bm.elems }) := by
  simp [ApplyInvalidMask, mbufClearCond, hgi, hgm]

/-- Claim C5: after CDataConversionApplyInvalid's ConvertOp, for both the
X and Z channels and every element position, the element equals the
channel buffer's maximum representable value (its invalid sentinel) where
the validity mask is 0, and is unchanged from the upstream value where
the mask is nonzero; the stage mutates the channels in place and returns
the same ProfileBuffer. -/
theorem applyInvalid_writes_sentinel (h : Heap) (d : SPData) (m : Nat) (bx bz bm : Buf)
    (hm : d.MilValidMask = some m)
    (hgx : h.get d.MilX = some bx) (hgz : h.get d.MilZ = some bz) (hgm : h.get m = some bm)
    (hxz : d.MilX ≠ d.MilZ) (hmx : m ≠ d.MilX) :
    ∃ h2, stageConvert .applyInvalid h d = some (h2, d) ∧
      h2.get d.MilX = some { bx with elems := clearCondList bx.bmax bx.elems bm.elems } ∧
      h2.get d.MilZ = some { bz with elems := clearCondList bz.bmax bz.elems bm.elems } ∧
      ∀ (i : Nat) (hix : i < bx.elems.length) (hiz : i < bz.elems.length)
        (him : i < bm.elems.length)
        (hwx : i < (clearCondList bx.bmax bx.elems bm.elems).length)
        (hwz : i < (clearCondList bz.bmax bz.elems bm.elems).length),
        (bm.elems.get ⟨i, him⟩ = 0 →
          (clearCondList bx.bmax bx.elems bm.elems).get ⟨i, hwx⟩ = bx.bmax ∧
          (clearCondList bz.bmax bz.elems bm.elems).get ⟨i, hwz⟩ = bz.bmax) ∧
        (bm.elems.get ⟨i, him⟩ ≠ 0 →
          (clearCondList bx.bmax bx.elems bm.elems).get ⟨i, hwx⟩ = bx.elems.get ⟨i, hix⟩ ∧
          (clearCondList bz.bmax bz.elems bm.elems).get ⟨i, hwz⟩ = bz.elems.get ⟨i, hiz⟩) := by
  have e1 := applyInvalidMask_run h d.MilX m bx bm hgx hgm
  set bx' : Buf := { bx with elems := clearCondList bx.bmax bx.elems bm.elems } with hbx'
  set h1 : Heap := h.set d.MilX bx' with hh1
  have g1z : h1.get d.MilZ = some bz := by
    rw [hh1, Heap.get_set_ne _ _ _ _ (Ne.symm hxz)]
    exact hgz
  have g1m : h1.get m = some bm := by
    rw [hh1, Heap.get_set_ne _ _ _ _ hmx]
    exact hgm
  have e2 := applyInvalidMask_run h1 d.MilZ m bz bm g1z g1m
  set bz' : Buf := { bz with elems := clearCondList bz.bmax bz.elems bm.elems } with hbz'
  set h2 : Heap := h1.set d.MilZ bz' with hh2
  refine ⟨h2, ?_, ?_, ?_, ?_⟩
  · simp [stageConvert, CDataConversionApplyInvalid.ConvertOp, hm, e1, e2, hh1, hh2]
  · rw [hh2, Heap.get_set_ne _ _ _ _ hxz, hh1, Heap.get_set_self]
  · rw [hh2, Heap.get_set_self]
  · intro i hix hiz him hwx hwz
    constructor
    · intro hzero
      simp only [List.get_eq_getElem, clearCondList] at hzero ⊢
      rw [List.getElem_zipWith, List.getElem_zipWith]
      simp [hzero]
    · intro hnz
      simp only [List.get_eq_getElem, clearCondList] at hnz ⊢
      rw [List.getElem_zipWith, List.getElem_zipWith]
      simp [hnz]

/-- In a well-formed heap, every id at or above the fresh-id counter is
unallocated. -/
theorem Heap.WF.get_none {h : Heap} (hwf : h.WF) {i : Nat} (hi : h.next ≤ i) :
    h.get i = none := by
  cases hg : h.get i with
  | none => rfl
  | some b => exact absurd (hwf.lt_next hg) (not_lt.mpr hi)

/-- Claim C9: CDataConversionToFlat allocates three fresh contiguous 1-d
buffers at construction (ids unused by any existing buffer), and its
Convert copies the upstream X and Z contents (possibly strided/2-d) and
the validity mask, when one is present, into those buffers, element for
element (hence with the same element count), returning them as the
converted ProfileBuffer. -/
theorem toFlat_copies_into_fresh (h : Heap) (d : SPData) (ps np : Nat) (t : ℚ)
    (m : Nat) (bx bz bm : Buf)
    (hwf : h.WF)
    (hgx : h.get d.MilX = some bx) (hgz : h.get d.MilZ = some bz)
    (hm : d.MilValidMask = some m) (hgm : h.get m = some bm) :
    ∃ h3 h4,
      CDataConversionToFlat.construct h ps np t =
        (h3, .toFlat h.next (h.next + 1) (h.next + 2)) ∧
      h.get h.next = none ∧ h.get (h.next + 1) = none ∧ h.get (h.next + 2) = none ∧
      stageConvert (.toFlat h.next (h.next + 1) (h.next + 2)) h3 d =
        some (h4, ⟨h.next, h.next + 1, some (h.next + 2)⟩) ∧
      h4.get h.next = some ⟨ps * np, 1, t, bx.elems⟩ ∧
      h4.get (h.next + 1) = some ⟨ps * np, 1, t, bz.elems⟩ ∧
      h4.get (h.next + 2) = some ⟨ps * np, 1, 255, bm.elems⟩ := by
  have hxlt : d.MilX < h.next := hwf.lt_next hgx
  have hzlt : d.MilZ < h.next := hwf.lt_next hgz
  have hmlt : m < h.next := hwf.lt_next hgm
  set n : Nat := ps * np with hn
  set bX0 : Buf := ⟨n, 1, t, List.replicate (n * 1) 0⟩ with hbX0
  set bZ0 : Buf := ⟨n, 1, t, List.replicate (n * 1) 0⟩ with hbZ0
  set bM0 : Buf := ⟨n, 1, 255, List.replicate (n * 1) 0⟩ with hbM0
  set h3 : Heap :=
    ⟨h.next + 3, (h.next + 2, bM0) :: (h.next + 1, bZ0) :: (h.next, bX0) :: h.mem⟩ with hh3
  have hcons : CDataConversionToFlat.construct h ps np t =
      (h3, .toFlat h.next (h.next + 1) (h.next + 2)) := rfl
  have g3 : ∀ j, j < h.next → h3.get j = h.get j := by
    intro j hj
    rw [hh3]
    show lookupBuf _ j = h.get j
    rw [lookupBuf_cons_ne _ _ _ _ (by omega), lookupBuf_cons_ne _ _ _ _ (by omega),
      lookupBuf_cons_ne _ _ _ _ (by omega)]
    rfl
  have g3x : h3.get d.MilX = some bx := (g3 _ hxlt).trans hgx
  have g3oX : h3.get h.next = some bX0 := by
    rw [hh3]
    show lookupBuf _ _ = _
    rw [lookupBuf_cons_ne _ _ _ _ (by omega), lookupBuf_cons_ne _ _ _ _ (by omega),
      lookupBuf_cons_self]
  have e1 : mbufGetInto h3 d.MilX h.next = some (h3.set h.next { bX0 with elems := bx.elems }) := by
    simp [mbufGetInto, g3x, g3oX]
  set hA : Heap := h3.set h.next { bX0 with elems := bx.elems } with hhA
  have gAz : hA.get d.MilZ = some bz := by
    rw [hhA, Heap.get_set_ne _ _ _ _ (by omega)]
    exact (g3 _ hzlt).trans hgz
  have gAoZ : hA.get (h.next + 1) = some bZ0 := by
    rw [hhA, Heap.get_set_ne _ _ _ _ (by omega), hh3]
    show lookupBuf _ _ = _
    rw [lookupBuf_cons_ne _ _ _ _ (by omega), lookupBuf_cons_self]
  have e2 : mbufGetInto hA d.MilZ (h.next + 1) =
      some (hA.set (h.next + 1) { bZ0 with elems := bz.elems }) := by
    simp [mbufGetInto, gAz, gAoZ]
  set hB : Heap := hA.set (h.next + 1) { bZ0 with elems := bz.elems } with hhB
  have gBm : hB.get m = some bm := by
    rw [hhB, Heap.get_set_ne _ _ _ _ (by omega), hhA, Heap.get_set_ne _ _ _ _ (by omega)]
    exact (g3 _ hmlt).trans hgm
  have gBoM : hB.get (h.next + 2) = some bM0 := by
    rw [hhB, Heap.get_set_ne _ _ _ _ (by omega), hhA, Heap.get_set_ne _ _ _ _ (by omega), hh3]
    show lookupBuf _ _ = _
    rw [lookupBuf_cons_self]
  have e3 : mbufGetInto hB m (h.next + 2) =
      some (hB.set (h.next + 2) { bM0 with elems := bm.elems }) := by
    simp [mbufGetInto, gBm, gBoM]
  set hC : Heap := hB.set (h.next + 2) { bM0 with elems := bm.elems } with hhC
  refine ⟨h3, hC, hcons, hwf.get_none (by omega), hwf.get_none (by omega),
    hwf.get_none (by omega), ?_, ?_, ?_, ?_⟩
  · simp [stageConvert, hm, e1, e2, e3, hhA, hhB, hhC]
  · rw [hhC, Heap.get_set_ne _ _ _ _ (by omega), hhB, Heap.get_set_ne _ _ _ _ (by omega),
      hhA, Heap.get_set_self]
  · rw [hhC, Heap.get_set_ne _ _ _ _ (by omega), hhB, Heap.get_set_self]
  · rw [hhC, Heap.get_set_self]

/-- m_ConvertedY has one entry per point of the multi-profile frame. -/
theorem makeConvertedY_length (wpy cs : ℚ) (ps : Nat) :
    ∀ n, (makeConvertedY wpy cs ps n).length = n * ps := by
  intro n
  induction n with
  | zero => simp [makeConvertedY]
  | succ k ih =>
      simp [makeConvertedY, ih]
      ring

/-- Indexing m_ConvertedY: the entry for column x of profile row y is
WorldPosY + y * ConveyorSpeed. -/
theorem makeConvertedY_get (wpy cs : ℚ) (ps : Nat) :
    ∀ (n x y : Nat), x < ps → y < n →
      (makeConvertedY wpy cs ps n)[x + y * ps]? = some (wpy + (y : ℚ) * cs) := by
  intro n
  induction n with
  | zero => exact fun x y _ hy => absurd hy (Nat.not_lt_zero y)
  | succ k ih =>
      intro x y hx hy
      simp only [makeConvertedY]
      by_cases hyk : y < k
      · have hlen : x + y * ps < (makeConvertedY wpy cs ps k).length := by
          rw [makeConvertedY_length]
          have h1 : (y + 1) * ps ≤ k * ps := Nat.mul_le_mul_right ps hyk
          have h2 : x + y * ps < (y + 1) * ps := by
            rw [Nat.succ_mul]
            omega
          omega
        rw [List.getElem?_append, if_pos hlen]
        exact ih x y hx hyk
      · have hyk' : y = k := by omega
        subst hyk'
        have hlen : (makeConvertedY wpy cs ps y).length ≤ x + y * ps := by
          rw [makeConvertedY_length]
          omega
        rw [List.getElem?_append, if_neg (Nat.not_lt.mpr hlen)]
        rw [makeConvertedY_length]
        have hsub : x + y * ps - y * ps = x := by omega
        rw [hsub]
        simp [List.getElem?_replicate, hx]

/-- Claim C8: the CProfileDepthMapProcess constructor precomputes, for
every point (column x, profile row y) of a multi-profile frame, the
world-Y coordinate WorldPosY + y * ConveyorSpeed at linear index
x + y * ProfileSize: one scalar per row, broadcast across the row's
columns, one entry per point of the frame. -/
theorem depthMap_precomputed_worldY (h : Heap) (pcal : SPCal) (wpy cs : ℚ)
    (ps np x y : Nat) (hx : x < ps) (hy : y < np) :
    ((CProfileDepthMapProcess.construct h pcal wpy cs ps np).2.convertedY)[x + y * ps]? =
      some (wpy + (y : ℚ) * cs) ∧
    ((CProfileDepthMapProcess.construct h pcal wpy cs ps np).2.convertedY).length = np * ps := by
  constructor
  · show (makeConvertedY wpy cs ps np)[x + y * ps]? = some (wpy + (y : ℚ) * cs)
    exact makeConvertedY_get wpy cs ps np x y hx hy
  · show (makeConvertedY wpy cs ps np).length = np * ps
    exact makeConvertedY_length wpy cs ps np

/-- A successful M3dmapPut appends exactly n samples to the container and
keeps everything already accumulated. -/
theorem m3dmapPut_append (cloud : List (ℚ × ℚ × ℚ)) (n : Nat) (xs ys zs : List ℚ)
    (cloud' : List (ℚ × ℚ × ℚ)) (hput : m3dmapPut cloud n xs ys zs = some cloud') :
    ∃ chunk, cloud' = cloud ++ chunk ∧ chunk.length = n := by
  unfold m3dmapPut at hput
  split_ifs at hput with hc
  obtain ⟨h1, h2, h3⟩ := hc
  obtain rfl := Option.some.inj hput
  refine ⟨_, rfl, ?_⟩
  simp [List.length_zip, List.length_take]
  omega

/-- One successful CProfileDepthMapProcess::Process call appends exactly
m_NbPoints samples to the point-cloud container (keeping all previously
accumulated points), leaves m_NbPoints unchanged and increments the frame
counter. -/
theorem depthMap_process_step (st : DMState) (h : Heap) (d : SPData)
    (st' : DMState) (h' : Heap)
    (hp : CProfileDepthMapProcess.Process st h d = some (st', h')) :
    (∃ chunk, st'.pointCloud = st.pointCloud ++ chunk ∧ chunk.length = st.nbPoints) ∧
    st'.nbPoints = st.nbPoints ∧
    st'.nbFramesProcessed = st.nbFramesProcessed + 1 := by
  unfold CProfileDepthMapProcess.Process at hp
  cases hcc : ConvertChain st.chain h d with
  | none => simp [hcc] at hp
  | some p =>
      obtain ⟨h1, cd⟩ := p
      simp only [hcc, Option.bind_eq_bind, Option.some_bind] at hp
      cases hbx : h1.get cd.MilX with
      | none => simp [hbx] at hp
      | some bx =>
          simp only [hbx, Option.some_bind] at hp
          cases hbz : h1.get cd.MilZ with
          | none => simp [hbz] at hp
          | some bz =>
              simp only [hbz, Option.some_bind] at hp
              cases hput : m3dmapPut st.pointCloud st.nbPoints bx.elems st.convertedY bz.elems with
              | none => simp [hput] at hp
              | some cloud =>
                  simp only [hput, Option.some_bind, Option.some.injEq, Prod.mk.injEq] at hp
                  obtain ⟨hst, hh⟩ := hp
                  obtain ⟨chunk, hchunk, hclen⟩ :=
                    m3dmapPut_append st.pointCloud st.nbPoints bx.elems st.convertedY bz.elems
                      cloud hput
                  subst hst
                  exact ⟨⟨chunk, by simpa using hchunk, hclen⟩, rfl, rfl⟩

/-- Claim C3: for every sequence of N successful Process calls on the
depth-map processor, the point-cloud container afterwards equals the
container before with exactly N * m_NbPoints samples appended:
accumulation is append-only, prior frames' points remain in place and
none is removed or replaced; starting from the constructor's empty
container the final container holds exactly N * P points.  The frame
counter advances by N. -/
theorem depthMap_accumulation (ds : List SPData) :
    ∀ (st : DMState) (h : Heap) (st' : DMState) (h' : Heap),
      ProcessSeq st h ds = some (st', h') →
      (∃ tail, st'.pointCloud = st.pointCloud ++ tail ∧
        tail.length = ds.length * st.nbPoints) ∧
      st'.nbPoints = st.nbPoints ∧
      st'.nbFramesProcessed = st.nbFramesProcessed + ds.length := by
  induction ds with
  | nil =>
      intro st h st' h' hp
      simp only [ProcessSeq, Option.some.injEq, Prod.mk.injEq] at hp
      obtain ⟨rfl, rfl⟩ := hp
      exact ⟨⟨[], by simp, by simp⟩, rfl, by simp⟩
  | cons d rest ih =>
      intro st h st' h' hp
      simp only [ProcessSeq] at hp
      cases hstep : CProfileDepthMapProcess.Process st h d with
      | none => simp [hstep] at hp
      | some p =>
          obtain ⟨st1, h1⟩ := p
          simp only [hstep, Option.bind_eq_bind, Option.some_bind] at hp
          obtain ⟨⟨chunk, hchunk, hclen⟩, hnb, hfr⟩ :=
            depthMap_process_step st h d st1 h1 hstep
          obtain ⟨⟨tail, htail, htlen⟩, hnb', hfr'⟩ := ih st1 h1 st' h' hp
          refine ⟨⟨chunk ++ tail, ?_, ?_⟩, ?_, ?_⟩
          · rw [htail, hchunk, List.append_assoc]
          · rw [List.length_append, hclen, htlen, hnb, List.length_cons]
            ring
          · rw [hnb', hnb]
          · rw [hfr', hfr, List.length_cons]
            ring

/-! Concrete sample data used to instantiate the theorems. -/

/-- A 2-point raw X buffer (16-bit unsigned). -/
def sampleBufX : Buf := ⟨2, 1, 65535, [100, 200]⟩

/-- A 2-point raw Z buffer (16-bit unsigned) containing the invalid
sentinel 0 at position 0. -/
def sampleBufZ : Buf := ⟨2, 1, 65535, [0, 300]⟩

/-- A 2-point 8-bit validity mask buffer: invalid at position 0. -/
def sampleMask : Buf := ⟨2, 1, 255, [0, 255]⟩

/-- A pre-allocated 2-point float output buffer. -/
def sampleOutX : Buf := ⟨2, 1, FLT_MAX_Q, [0, 0]⟩

/-- A second pre-allocated 2-point float output buffer. -/
def sampleOutZ : Buf := ⟨2, 1, FLT_MAX_Q, [0, 0]⟩

/-- A heap holding the five sample buffers at ids 0..4. -/
def sampleHeap : Heap :=
  ⟨5, [(0, sampleBufX), (1, sampleBufZ), (2, sampleMask), (3, sampleOutX), (4, sampleOutZ)]⟩

/-- Sample profile data: X at id 0, Z at id 1, mask at id 2. -/
def sampleData : SPData := ⟨0, 1, some 2⟩

/-- Sample calibration: offsets 10/20, scales 2/3. -/
def sampleCal : SPCal := ⟨10, 20, 2, 3⟩

/-- Witness for the C6 theorem at the sample input. -/
theorem flip_in_place_involutive_witness :
    (∃ h1, stageConvert .flipX sampleHeap sampleData = some (h1, sampleData) ∧
      h1.get sampleData.MilX = some { sampleBufX with
        elems := sampleBufX.elems.map (fun v => 65535 - v) } ∧
      (∀ j, j ≠ sampleData.MilX → h1.get j = sampleHeap.get j) ∧
      h1.next = sampleHeap.next ∧
      ∃ h2, stageConvert .flipX h1 sampleData = some (h2, sampleData) ∧
        h2.get sampleData.MilX = some sampleBufX) ∧
    (∃ h1, stageConvert .flipZ sampleHeap sampleData = some (h1, sampleData) ∧
      h1.get sampleData.MilZ = some { sampleBufZ with
        elems := sampleBufZ.elems.map (fun v => 65535 - v) } ∧
      (∀ j, j ≠ sampleData.MilZ → h1.get j = sampleHeap.get j) ∧
      h1.next = sampleHeap.next ∧
      ∃ h2, stageConvert .flipZ h1 sampleData = some (h2, sampleData) ∧
        h2.get sampleData.MilZ = some sampleBufZ) :=
  flip_in_place_involutive sampleHeap sampleData sampleBufX sampleBufZ rfl rfl rfl rfl
    (by decide) (by decide)

/-- Witness for the C4 theorem at the sample input (sentinel 0). -/
theorem addMask_mask_from_sentinel_witness :
    ∃ h1, stageConvert (.addMask 2 0) sampleHeap sampleData =
        some (h1, ⟨sampleData.MilX, sampleData.MilZ, some 2⟩) ∧
      h1.get 2 = some { sampleMask with
        elems := sampleBufZ.elems.map (fun z => if z = 0 then 0 else sampleMask.bmax) } ∧
      h1.get sampleData.MilX = sampleHeap.get sampleData.MilX ∧
      h1.get sampleData.MilZ = some sampleBufZ ∧
      ∀ (i : Nat) (hiz : i < sampleBufZ.elems.length)
        (him : i < (sampleBufZ.elems.map (fun z =>
          if z = 0 then 0 else sampleMask.bmax)).length),
        ((sampleBufZ.elems.map (fun z =>
          if z = 0 then 0 else sampleMask.bmax)).get ⟨i, him⟩ ≠ 0 ↔
          sampleBufZ.elems.get ⟨i, hiz⟩ ≠ (0 : ℚ)) :=
  addMask_mask_from_sentinel sampleHeap sampleData 2 0 sampleBufZ sampleMask rfl rfl rfl
    (by decide) (by decide)

/-- Witness for the C2 theorem at the sample input. -/
theorem toWorld_affine_witness :
    ∃ h4, stageConvert (.toWorld 3 4 sampleCal) sampleHeap sampleData =
        some (h4, ⟨3, 4, sampleData.MilValidMask⟩) ∧
      h4.get 3 = some { sampleOutX with
        elems := sampleBufX.elems.map (fun r =>
          r * sampleCal.GrayLevelSX + sampleCal.WorldX) } ∧
      h4.get 4 = some { sampleOutZ with
        elems := sampleBufZ.elems.map (fun r =>
          r * sampleCal.GrayLevelSZ + sampleCal.WorldZ) } ∧
      (∀ m, sampleData.MilValidMask = some m → m ≠ 3 → m ≠ 4 →
        h4.get m = sampleHeap.get m) ∧
      (sampleCal.GrayLevelSX = 0 →
        sampleBufX.elems.map (fun r => r * sampleCal.GrayLevelSX + sampleCal.WorldX) =
          List.replicate sampleBufX.elems.length sampleCal.WorldX) ∧
      (sampleCal.GrayLevelSZ = 0 →
        sampleBufZ.elems.map (fun r => r * sampleCal.GrayLevelSZ + sampleCal.WorldZ) =
          List.replicate sampleBufZ.elems.length sampleCal.WorldZ) :=
  toWorld_affine sampleHeap sampleData 3 4 sampleCal sampleBufX sampleBufZ sampleOutX sampleOutZ
    rfl rfl rfl rfl (by decide) (by decide)

/-- Witness for the C10 theorem at the sample input. -/
theorem toWorld_preserves_upstream_witness :
    ∃ h4 r, stageConvert (.toWorld 3 4 sampleCal) sampleHeap sampleData = some (h4, r) ∧
      h4.get sampleData.MilX = some sampleBufX ∧
      h4.get sampleData.MilZ = some sampleBufZ ∧
      h4.get sampleData.MilX = sampleHeap.get sampleData.MilX ∧
      h4.get sampleData.MilZ = sampleHeap.get sampleData.MilZ :=
  toWorld_preserves_upstream sampleHeap sampleData 3 4 sampleCal sampleBufX sampleBufZ
    sampleOutX sampleOutZ rfl rfl rfl rfl (by decide) (by decide) (by decide) (by decide)
    (by decide)

/-- Witness for the C5 theorem at the sample input. -/
theorem applyInvalid_writes_sentinel_witness :
    ∃ h2, stageConvert .applyInvalid sampleHeap sampleData = some (h2, sampleData) ∧
      h2.get sampleData.MilX = some { sampleBufX with
        elems := clearCondList sampleBufX.bmax sampleBufX.elems sampleMask.elems } ∧
      h2.get sampleData.MilZ = some { sampleBufZ with
        elems := clearCondList sampleBufZ.bmax sampleBufZ.elems sampleMask.elems } ∧
      ∀ (i : Nat) (hix : i < sampleBufX.elems.length) (hiz : i < sampleBufZ.elems.length)
        (him : i < sampleMask.elems.length)
        (hwx : i < (clearCondList sampleBufX.bmax sampleBufX.elems sampleMask.elems).length)
        (hwz : i < (clearCondList sampleBufZ.bmax sampleBufZ.elems sampleMask.elems).length),
        (sampleMask.elems.get ⟨i, him⟩ = 0 →
          (clearCondList sampleBufX.bmax sampleBufX.elems sampleMask.elems).get ⟨i, hwx⟩ =
            sampleBufX.bmax ∧
          (clearCondList sampleBufZ.bmax sampleBufZ.elems sampleMask.elems).get ⟨i, hwz⟩ =
            sampleBufZ.bmax) ∧
        (sampleMask.elems.get ⟨i, him⟩ ≠ 0 →
          (clearCondList sampleBufX.bmax sampleBufX.elems sampleMask.elems).get ⟨i, hwx⟩ =
            sampleBufX.elems.get ⟨i, hix⟩ ∧
          (clearCondList sampleBufZ.bmax sampleBufZ.elems sampleMask.elems).get ⟨i, hwz⟩ =
            sampleBufZ.elems.get ⟨i, hiz⟩) :=
  applyInvalid_writes_sentinel sampleHeap sampleData 2 sampleBufX sampleBufZ sampleMask rfl
    rfl rfl rfl (by decide) (by decide)

/-- Witness for the C9 theorem at the sample input. -/
theorem toFlat_copies_into_fresh_witness :
    ∃ h3 h4,
      CDataConversionToFlat.construct sampleHeap 2 1 FLT_MAX_Q =
        (h3, .toFlat sampleHeap.next (sampleHeap.next + 1) (sampleHeap.next + 2)) ∧
      sampleHeap.get sampleHeap.next = none ∧
      sampleHeap.get (sampleHeap.next + 1) = none ∧
      sampleHeap.get (sampleHeap.next + 2) = none ∧
      stageConvert (.toFlat sampleHeap.next (sampleHeap.next + 1) (sampleHeap.next + 2))
          h3 sampleData =
        some (h4, ⟨sampleHeap.next, sampleHeap.next + 1, some (sampleHeap.next + 2)⟩) ∧
      h4.get sampleHeap.next = some ⟨2 * 1, 1, FLT_MAX_Q, sampleBufX.elems⟩ ∧
      h4.get (sampleHeap.next + 1) = some ⟨2 * 1, 1, FLT_MAX_Q, sampleBufZ.elems⟩ ∧
      h4.get (sampleHeap.next + 2) = some ⟨2 * 1, 1, 255, sampleMask.elems⟩ :=
  toFlat_copies_into_fresh sampleHeap sampleData 2 1 FLT_MAX_Q 2 sampleBufX sampleBufZ
    sampleMask (by decide) rfl rfl rfl rfl

/-- Witness for the C8 theorem at the sample input (2 columns, 2 profile
rows, WorldPosY 10, ConveyorSpeed 3, point (x, y) = (1, 1)). -/
theorem depthMap_precomputed_worldY_witness :
    ((CProfileDepthMapProcess.construct sampleHeap sampleCal 10 3 2 2).2.convertedY)[1 + 1 * 2]? =
      some (10 + ((1 : Nat) : ℚ) * 3) ∧
    ((CProfileDepthMapProcess.construct sampleHeap sampleCal 10 3 2 2).2.convertedY).length =
      2 * 2 :=
  depthMap_precomputed_worldY sampleHeap sampleCal 10 3 2 2 1 1 (by decide) (by decide)

/-- The heap after constructing a depth-map processor (2-point profiles,
1 profile per frame) over the sample heap. -/
def sampleDMHeap : Heap :=
  (CProfileDepthMapProcess.construct sampleHeap sampleCal 10 3 2 1).1

/-- The freshly constructed depth-map processor state for the sample
setup. -/
def sampleDMState : DMState :=
  (CProfileDepthMapProcess.construct sampleHeap sampleCal 10 3 2 1).2

/-- Witness for the C3 theorem: two Process calls on the freshly
constructed sample depth-map processor, through its real conversion
chain. -/
theorem depthMap_accumulation_witness :
    ∃ st' h', ProcessSeq sampleDMState sampleDMHeap [sampleData, sampleData] = some (st', h') ∧
      (∃ tail, st'.pointCloud = sampleDMState.pointCloud ++ tail ∧
        tail.length = [sampleData, sampleData].length * sampleDMState.nbPoints) ∧
      st'.nbPoints = sampleDMState.nbPoints ∧
      st'.nbFramesProcessed =
        sampleDMState.nbFramesProcessed + [sampleData, sampleData].length := by
  cases hps : ProcessSeq sampleDMState sampleDMHeap [sampleData, sampleData] with
  | none => exact absurd hps (by decide)
  | some p =>
      obtain ⟨st', h'⟩ := p
      obtain ⟨hex, hnb, hfr⟩ :=
        depthMap_accumulation [sampleData, sampleData] sampleDMState sampleDMHeap st' h' hps
      exact ⟨st', h', rfl, hex, hnb, hfr⟩
